import Mathlib

/-!
Verification of the statistical core of the `cxl-calculator` repository
(an A/B-test significance and MDE calculator).

The TypeScript source is shallowly embedded over the real numbers:
`Math.sqrt`, `Math.exp`, `Math.log` become `Real.sqrt`, `Real.exp`,
`Real.log`, JavaScript numbers become `ℝ`, `null` results become
`Option`, and the JavaScript value `Infinity` (reachable only in the
uplift field and in `calculateRequiredN`) is modelled with a dedicated
inductive type resp. `EReal`.  Every definition mirrors one function of
`src/app/calculator/page.tsx` or of the code listings embedded in
`src/docs/README.md`; the exact place is named in each doc comment.
JavaScript `const` bindings are inlined (they only name subexpressions).
-/

namespace CxlCalc

/-- Quintic polynomial part of the Abramowitz–Stegun approximation used by
`standardNormalCdf` (`src/app/calculator/page.tsx`, line 19): the local
`poly` with coefficients `a1 .. a5`, evaluated at `t`. -/
noncomputable def polyA (t : ℝ) : ℝ :=
  0.254829592 * t + (-0.284496736) * t ^ 2 + 1.421413741 * t ^ 3 +
    (-1.453152027) * t ^ 4 + 1.061405429 * t ^ 5

/-- Standard normal cumulative distribution function approximation,
embedding `standardNormalCdf` of `src/app/calculator/page.tsx` (lines 9-23;
the same function is repeated verbatim in the README listings).  Here
`sign = if z ≥ 0 then 1 else -1`, `t = 1 / (1 + p·|z|)` with
`p = 0.3275911`, and `erf = 1 - poly(t)·exp(-z²)`. -/
noncomputable def standardNormalCdf (z : ℝ) : ℝ :=
  0.5 * (1 + (if z ≥ 0 then (1:ℝ) else -1) *
    (1 - polyA (1 / (1 + 0.3275911 * |z|)) * Real.exp (-(z ^ 2))))

/-- Inverse standard normal CDF, embedding `standardNormalInverseCdf` of the
README listings (`src/docs/README.md`, lines 113-130 and 509-529): Acklam's
tail rational approximation applied on both half ranges (`a`,`b`
coefficients below 0.5, `c`,`d` coefficients above), with the sentinel
result `0` outside the open unit interval and `q = sqrt(-2·ln(min(p,1-p)))`. -/
noncomputable def standardNormalInverseCdf (p : ℝ) : ℝ :=
  if p ≤ 0 ∨ p ≥ 1 then 0
  else if p < 0.5 then
    ((((((-39.69683028665376) * Real.sqrt (-2 * Real.log p) + 220.9460984245205) *
        Real.sqrt (-2 * Real.log p) + (-275.9285104469687)) *
        Real.sqrt (-2 * Real.log p) + 138.3577518672690) *
        Real.sqrt (-2 * Real.log p) + (-30.66479806614716)) *
        Real.sqrt (-2 * Real.log p) + 2.506628277459239) /
      ((((((-54.47609879822406) * Real.sqrt (-2 * Real.log p) + 161.5858368580409) *
        Real.sqrt (-2 * Real.log p) + (-155.6989798598866)) *
        Real.sqrt (-2 * Real.log p) + 66.80131188771972) *
        Real.sqrt (-2 * Real.log p) + (-13.28068155288572)) *
        Real.sqrt (-2 * Real.log p) + 1)
  else
    -(((((((-0.007784894002430293) * Real.sqrt (-2 * Real.log (1 - p)) +
        (-0.3223964580411365)) * Real.sqrt (-2 * Real.log (1 - p)) +
        (-2.400758277161838)) * Real.sqrt (-2 * Real.log (1 - p)) +
        (-2.549732539343734)) * Real.sqrt (-2 * Real.log (1 - p)) +
        4.374664141464968) * Real.sqrt (-2 * Real.log (1 - p)) + 2.938163982698783) /
      ((((0.007784695709041462 * Real.sqrt (-2 * Real.log (1 - p)) + 0.3224671290700398) *
        Real.sqrt (-2 * Real.log (1 - p)) + 2.445134137142996) *
        Real.sqrt (-2 * Real.log (1 - p)) + 3.754408661907416) *
        Real.sqrt (-2 * Real.log (1 - p)) + 1))

/-- Value of the `uplift` field of a significance result: a real number or
the JavaScript value `Infinity`. -/
inductive UpliftVal where
  | val : ℝ → UpliftVal
  | inf : UpliftVal

/-- Result record of the `TestAnalysis` computation
(`src/app/calculator/page.tsx`, lines 55-79).  JavaScript `null` in the
`confidence` and `pValue` fields is `none`. -/
structure SignificanceResult where
  convRateA : ℝ
  convRateB : ℝ
  uplift : UpliftVal
  confidence : Option ℝ
  isSignificant : Bool
  pValue : Option ℝ

/-- Two-proportion Z-test, embedding the `results` computation of the
`TestAnalysis` component in `src/app/calculator/page.tsx` (lines 40-80):
input validation; conversion rates `cA/vA`, `cB/vB`; uplift with its
zero-control-rate edge cases; pooled probability `(cA+cB)/(vA+vB)`;
standard error `sqrt(pooled·(1-pooled)·(1/vA+1/vB))` with its degenerate
branch; else the two-tailed p-value, confidence and significance flag. -/
noncomputable def analyzeSignificance (vA cA vB cB : ℝ) : Option SignificanceResult :=
  if vA ≤ 0 ∨ cA < 0 ∨ vB ≤ 0 ∨ cB < 0 ∨ cA > vA ∨ cB > vB then none
  else if cA / vA = 0 then
    some ⟨cA / vA, cB / vB, if cB / vB > 0 then .inf else .val 0, none, false, none⟩
  else if Real.sqrt ((cA + cB) / (vA + vB) * (1 - (cA + cB) / (vA + vB)) * (1 / vA + 1 / vB))
      = 0 then
    some ⟨cA / vA, cB / vB, .val ((cB / vB - cA / vA) / (cA / vA)),
      some (if cA / vA = cB / vB then 0.5 else if cB / vB > cA / vA then 1 else 0),
      false,
      some (if cA / vA = cB / vB then 1 else 0)⟩
  else
    some ⟨cA / vA, cB / vB, .val ((cB / vB - cA / vA) / (cA / vA)),
      some (1 - 2 * (1 - standardNormalCdf |(cB / vB - cA / vA) /
        Real.sqrt ((cA + cB) / (vA + vB) * (1 - (cA + cB) / (vA + vB)) * (1 / vA + 1 / vB))|)),
      if 1 - 2 * (1 - standardNormalCdf |(cB / vB - cA / vA) /
        Real.sqrt ((cA + cB) / (vA + vB) * (1 - (cA + cB) / (vA + vB)) * (1 / vA + 1 / vB))|)
        ≥ 0.95 then true else false,
      some (2 * (1 - standardNormalCdf |(cB / vB - cA / vA) /
        Real.sqrt ((cA + cB) / (vA + vB) * (1 - (cA + cB) / (vA + vB)) * (1 / vA + 1 / vB))|))⟩

/-- In the degenerate branch of `analyzeSignificance` (reached with
`convRateA ≠ 0` and zero standard error) the pooled probability must be `1`
and hence both arms converted fully; this is the arithmetic fact behind
the reachability analysis of the `stdError = 0` branch. -/
theorem pooled_degenerate {vA cA vB cB : ℝ}
    (hvA : 0 < vA) (hcA : 0 ≤ cA) (hvB : 0 < vB) (hcB : 0 ≤ cB)
    (hAle : cA ≤ vA) (hBle : cB ≤ vB) (hrA : cA / vA ≠ 0)
    (hse : Real.sqrt ((cA + cB) / (vA + vB) * (1 - (cA + cB) / (vA + vB)) * (1 / vA + 1 / vB)) = 0) :
    cA = vA ∧ cB = vB := by
  have hvAB : 0 < vA + vB := by linarith
  have hrec : 0 < 1 / vA + 1 / vB := by positivity
  have hp0 : 0 ≤ (cA + cB) / (vA + vB) := by positivity
  have hp1 : (cA + cB) / (vA + vB) ≤ 1 := by
    rw [div_le_one hvAB]; linarith
  have harg : (cA + cB) / (vA + vB) * (1 - (cA + cB) / (vA + vB)) * (1 / vA + 1 / vB) ≤ 0 :=
    Real.sqrt_eq_zero'.mp hse
  have hpp : (cA + cB) / (vA + vB) * (1 - (cA + cB) / (vA + vB)) = 0 := by nlinarith
  rcases mul_eq_zero.mp hpp with h0 | h1
  · exfalso
    have hsum : cA + cB = 0 :=
      (div_eq_zero_iff.mp h0).resolve_right (by positivity)
    have hcA0 : cA = 0 := by linarith
    exact hrA (by simp [hcA0])
  · have hsum : cA + cB = vA + vB := by
      have h2 : (cA + cB) / (vA + vB) = 1 := by linarith
      field_simp at h2
      linarith
    constructor <;> linarith

/-- C3.  For every `SignificanceResult` returned by `analyzeSignificance`,
the `isSignificant` flag is true exactly when the returned confidence is a
(non-null) value at least `0.95`. -/
theorem isSignificant_iff_confidence_ge (vA cA vB cB : ℝ) (r : SignificanceResult)
    (h : analyzeSignificance vA cA vB cB = some r) :
    r.isSignificant = true ↔ ∃ c, r.confidence = some c ∧ c ≥ 0.95 := by
  unfold analyzeSignificance at h
  by_cases hval : vA ≤ 0 ∨ cA < 0 ∨ vB ≤ 0 ∨ cB < 0 ∨ cA > vA ∨ cB > vB
  · rw [if_pos hval] at h; exact absurd h (by simp)
  rw [if_neg hval] at h
  push_neg at hval
  obtain ⟨hvA, hcA, hvB, hcB, hAle, hBle⟩ := hval
  by_cases hr0 : cA / vA = 0
  · rw [if_pos hr0] at h
    injection h with h; subst h
    simp
  rw [if_neg hr0] at h
  by_cases hse :
      Real.sqrt ((cA + cB) / (vA + vB) * (1 - (cA + cB) / (vA + vB)) * (1 / vA + 1 / vB)) = 0
  · rw [if_pos hse] at h
    injection h with h; subst h
    obtain ⟨hA, hB⟩ := pooled_degenerate hvA hcA hvB hcB hAle hBle hr0 hse
    have heq : cA / vA = cB / vB := by
      rw [hA, hB, div_self (ne_of_gt hvA), div_self (ne_of_gt hvB)]
    simp only [heq, if_pos rfl]
    constructor
    · intro hfalse; exact absurd hfalse (by simp)
    · rintro ⟨c, hc, hge⟩
      have : c = (0.5 : ℝ) := (Option.some_inj.mp hc).symm
      subst this
      norm_num at hge
  · rw [if_neg hse] at h
    injection h with h; subst h
    simp only
    by_cases hc : 1 - 2 * (1 - standardNormalCdf |(cB / vB - cA / vA) /
        Real.sqrt ((cA + cB) / (vA + vB) * (1 - (cA + cB) / (vA + vB)) * (1 / vA + 1 / vB))|)
        ≥ 0.95
    · simp only [if_pos hc]
      constructor
      · intro _
        exact ⟨_, rfl, hc⟩
      · intro _
        trivial
    · simp only [if_neg hc]
      constructor
      · intro hfalse; exact absurd hfalse (by simp)
      · rintro ⟨c, hcc, hge⟩
        have : c = _ := (Option.some_inj.mp hcc).symm
        subst this
        exact absurd hge hc

/-- Concrete degenerate result record used as witness data: every visitor
of both arms converts. -/
noncomputable def sigResAllOnes : SignificanceResult :=
  ⟨1, 1, .val 0, some 0.5, false, some 1⟩

/-- The all-converted input (1,1,1,1) produces `sigResAllOnes`. -/
theorem analyze_ones_eq : analyzeSignificance 1 1 1 1 = some sigResAllOnes := by
  unfold analyzeSignificance sigResAllOnes
  rw [if_neg (by norm_num), if_neg (by norm_num : ¬((1:ℝ) / 1 = 0)),
    if_pos (by norm_num : Real.sqrt (((1:ℝ) + 1) / (1 + 1) * (1 - (1 + 1) / (1 + 1)) *
      (1 / 1 + 1 / 1)) = 0)]
  norm_num

/-- Witness for C3: at the concrete degenerate input (1,1,1,1) the returned
record has `isSignificant = false` and `confidence = 0.5 < 0.95`, and the
equivalence of `isSignificant_iff_confidence_ge` holds for it. -/
theorem isSignificant_iff_confidence_ge_witness :
    analyzeSignificance 1 1 1 1 = some sigResAllOnes ∧
      (sigResAllOnes.isSignificant = true ↔
        ∃ c, sigResAllOnes.confidence = some c ∧ c ≥ 0.95) :=
  ⟨analyze_ones_eq, isSignificant_iff_confidence_ge 1 1 1 1 sigResAllOnes analyze_ones_eq⟩

/-- C4.  The uplift returned by `analyzeSignificance` is
`(rateB − rateA) / rateA`, with value `+∞` when `rateA = 0 < rateB` and `0`
when both rates vanish. -/
theorem uplift_spec (vA cA vB cB : ℝ) (r : SignificanceResult)
    (h : analyzeSignificance vA cA vB cB = some r) :
    (cA / vA = 0 → cB / vB > 0 → r.uplift = .inf) ∧
      (cA / vA = 0 → cB / vB = 0 → r.uplift = .val 0) ∧
      (cA / vA ≠ 0 → r.uplift = .val ((cB / vB - cA / vA) / (cA / vA))) := by
  unfold analyzeSignificance at h
  by_cases hval : vA ≤ 0 ∨ cA < 0 ∨ vB ≤ 0 ∨ cB < 0 ∨ cA > vA ∨ cB > vB
  · rw [if_pos hval] at h; exact absurd h (by simp)
  rw [if_neg hval] at h
  by_cases hr0 : cA / vA = 0
  · rw [if_pos hr0] at h
    injection h with h; subst h
    refine ⟨fun _ hB => by simp [if_pos hB], fun _ hB0 => ?_, fun hne => absurd hr0 hne⟩
    have hnB : ¬(cB / vB > 0) := by rw [hB0]; norm_num
    simp [if_neg hnB]
  rw [if_neg hr0] at h
  by_cases hse :
      Real.sqrt ((cA + cB) / (vA + vB) * (1 - (cA + cB) / (vA + vB)) * (1 / vA + 1 / vB)) = 0
  · rw [if_pos hse] at h
    injection h with h; subst h
    exact ⟨fun h0 => absurd h0 hr0, fun h0 => absurd h0 hr0, fun _ => rfl⟩
  · rw [if_neg hse] at h
    injection h with h; subst h
    exact ⟨fun h0 => absurd h0 hr0, fun h0 => absurd h0 hr0, fun _ => rfl⟩

/-- Result of `analyzeSignificance 1 0 1 1`: zero control rate with a
converting variation. -/
noncomputable def sigResInf : SignificanceResult :=
  ⟨0, 1, .inf, none, false, none⟩

/-- The input (1,0,1,1) produces `sigResInf`. -/
theorem analyze_inf_eq : analyzeSignificance 1 0 1 1 = some sigResInf := by
  unfold analyzeSignificance sigResInf
  rw [if_neg (by norm_num), if_pos (by norm_num : (0:ℝ) / 1 = 0),
    if_pos (by norm_num : (1:ℝ) / 1 > 0)]
  norm_num

/-- Witness for C4: at (1,0,1,1) the control rate is `0`, the variation rate
is positive, and the returned uplift is the infinite value. -/
theorem uplift_spec_witness :
    analyzeSignificance 1 0 1 1 = some sigResInf ∧
      ((0:ℝ) / 1 = 0 → (1:ℝ) / 1 > 0 → sigResInf.uplift = .inf) :=
  ⟨analyze_inf_eq, (uplift_spec 1 0 1 1 sigResInf analyze_inf_eq).1⟩

/-- Result of `analyzeSignificance 1 0 1 0`: both rates zero. -/
noncomputable def sigResZero : SignificanceResult :=
  ⟨0, 0, .val 0, none, false, none⟩

/-- The input (1,0,1,0) produces `sigResZero`. -/
theorem analyze_zero_eq : analyzeSignificance 1 0 1 0 = some sigResZero := by
  unfold analyzeSignificance sigResZero
  rw [if_neg (by norm_num), if_pos (by norm_num : (0:ℝ) / 1 = 0),
    if_neg (by norm_num : ¬((0:ℝ) / 1 > 0))]
  norm_num

/-- Counterexample for C5.  At the accepted input (1,0,1,0) the
mathematical standard error `sqrt(pooled·(1−pooled)·(1/vA+1/vB))` is `0`
and both conversion rates are equal (both `0`), so the claim asserts a
confidence of `0.5`; the code instead short-circuits on the zero control
rate and returns a null confidence. -/
theorem stdError_zero_claim_counterexample :
    analyzeSignificance 1 0 1 0 = some sigResZero ∧
      Real.sqrt (((0:ℝ) + 0) / (1 + 1) * (1 - ((0:ℝ) + 0) / (1 + 1)) * (1 / 1 + 1 / 1)) = 0 ∧
      (0:ℝ) / 1 = (0:ℝ) / 1 ∧
      sigResZero.confidence ≠ some 0.5 := by
  refine ⟨analyze_zero_eq, by norm_num, rfl, by simp [sigResZero]⟩

/-- C5 (amended).  For accepted inputs reaching the standard-error branch
(`rateA ≠ 0`) with `stdError = 0`, the confidence is `0.5` for equal rates,
else `1` or `0` by direction, and `isSignificant` is false; for accepted
inputs with `rateA = 0` the function instead short-circuits with a null
confidence, again not significant. -/
theorem stdError_zero_policy (vA cA vB cB : ℝ) (r : SignificanceResult)
    (h : analyzeSignificance vA cA vB cB = some r) :
    (cA / vA ≠ 0 →
      Real.sqrt ((cA + cB) / (vA + vB) * (1 - (cA + cB) / (vA + vB)) * (1 / vA + 1 / vB)) = 0 →
      r.confidence = some (if cA / vA = cB / vB then 0.5 else if cB / vB > cA / vA then 1 else 0) ∧
        r.isSignificant = false) ∧
      (cA / vA = 0 → r.confidence = none ∧ r.isSignificant = false) := by
  unfold analyzeSignificance at h
  by_cases hval : vA ≤ 0 ∨ cA < 0 ∨ vB ≤ 0 ∨ cB < 0 ∨ cA > vA ∨ cB > vB
  · rw [if_pos hval] at h; exact absurd h (by simp)
  rw [if_neg hval] at h
  by_cases hr0 : cA / vA = 0
  · rw [if_pos hr0] at h
    injection h with h; subst h
    exact ⟨fun hne _ => absurd hr0 hne, fun _ => ⟨rfl, rfl⟩⟩
  rw [if_neg hr0] at h
  by_cases hse :
      Real.sqrt ((cA + cB) / (vA + vB) * (1 - (cA + cB) / (vA + vB)) * (1 / vA + 1 / vB)) = 0
  · rw [if_pos hse] at h
    injection h with h; subst h
    exact ⟨fun _ _ => ⟨rfl, rfl⟩, fun h0 => absurd h0 hr0⟩
  · rw [if_neg hse] at h
    injection h with h; subst h
    exact ⟨fun _ hz => absurd hz hse, fun h0 => absurd h0 hr0⟩

/-- Witness for the amended C5: at (1,1,1,1) the standard-error branch is
reached with `stdError = 0` and equal rates, and the returned confidence is
`0.5` with `isSignificant = false`. -/
theorem stdError_zero_policy_witness :
    ((1:ℝ) / 1 ≠ 0) ∧
      sigResAllOnes.confidence =
        some (if (1:ℝ) / 1 = (1:ℝ) / 1 then 0.5 else if (1:ℝ) / 1 > (1:ℝ) / 1 then 1 else 0) ∧
      sigResAllOnes.isSignificant = false := by
  have h := (stdError_zero_policy 1 1 1 1 sigResAllOnes analyze_ones_eq).1
    (by norm_num) (by norm_num)
  exact ⟨by norm_num, h.1, h.2⟩

/-- C6.  `analyzeSignificance` returns no result exactly on the stated
invalid inputs, and a computed record on every other input. -/
theorem analyze_validation (vA cA vB cB : ℝ) :
    analyzeSignificance vA cA vB cB = none ↔
      vA ≤ 0 ∨ cA < 0 ∨ vB ≤ 0 ∨ cB < 0 ∨ cA > vA ∨ cB > vB := by
  unfold analyzeSignificance
  by_cases hval : vA ≤ 0 ∨ cA < 0 ∨ vB ≤ 0 ∨ cB < 0 ∨ cA > vA ∨ cB > vB
  · rw [if_pos hval]; simpa using hval
  · rw [if_neg hval]
    constructor
    · intro h
      by_cases hr0 : cA / vA = 0
      · rw [if_pos hr0] at h; exact absurd h (by simp)
      rw [if_neg hr0] at h
      by_cases hse :
          Real.sqrt ((cA + cB) / (vA + vB) * (1 - (cA + cB) / (vA + vB)) * (1 / vA + 1 / vB)) = 0
      · rw [if_pos hse] at h; exact absurd h (by simp)
      · rw [if_neg hse] at h; exact absurd h (by simp)
    · intro h; exact absurd h hval

/-- One row of the MDE-by-duration table of the bisection planner
(`src/docs/README.md`, lines 315-318): a week count and either a found MDE
(`some`) or the `N/A` marker (`none`). -/
structure MdeRow where
  weeks : ℕ
  mde : Option ℝ

/-- Required per-variation sample size for a relative uplift `mde`,
embedding `calculateRequiredN` of the bisection planner
(`src/docs/README.md`, lines 277-287).  `zSum` is `Z_ALPHA + Z_BETA` and
`p1` the baseline conversion rate; the JavaScript `Infinity` results are
`⊤ : EReal`. -/
noncomputable def calculateRequiredN (zSum p1 mde : ℝ) : EReal :=
  if mde ≤ 0 then ⊤
  else if p1 * (1 + mde) > 1 then ⊤
  else if (p1 * (1 + mde) - p1) ^ 2 = 0 then ⊤
  else ((zSum ^ 2 * (p1 * (1 - p1) + p1 * (1 + mde) * (1 - p1 * (1 + mde)))) /
    (p1 * (1 + mde) - p1) ^ 2 : ℝ)

/-- The bisection loop of the planner (`src/docs/README.md`, lines
295-309), one constructor case per remaining iteration: from state
`(lowMde, highMde)`, take the midpoint, stop if it is zero (the `break`),
move `lowMde` up when the required sample size exceeds the available one
`n`, else move `highMde` down. -/
noncomputable def bisect (zSum p1 n : ℝ) : ℕ → ℝ × ℝ → ℝ × ℝ
  | 0, s => s
  | k + 1, s =>
    if (s.1 + s.2) / 2 = 0 then s
    else if (n : EReal) < calculateRequiredN zSum p1 ((s.1 + s.2) / 2) then
      bisect zSum p1 n k (((s.1 + s.2) / 2, s.2))
    else
      bisect zSum p1 n k ((s.1, (s.1 + s.2) / 2))

/-- MDE planner, bisection variant, embedding the `preTestResults`
computation of the `PreTestAnalysis` component in `src/docs/README.md`
(lines 260-322): input validation (the confidence and power arguments are
the percentage inputs already divided by 100), baseline rate degeneracy
check, dynamic Z-scores `Z_ALPHA = inv(1-alpha/2)`, `Z_BETA = inv(1-beta)`,
then for each of 6 week counts a 100-iteration bisection search on `[0,5]`
whose final `highMde` is reported when it moved below the ceiling 5. -/
noncomputable def planMde (traffic conversions conf pow : ℝ) : Option (List MdeRow) :=
  if traffic ≤ 0 ∨ conversions < 0 ∨ conversions > traffic ∨
      conf ≤ 0 ∨ conf ≥ 1 ∨ pow ≤ 0 ∨ pow ≥ 1 then none
  else if conversions / traffic = 0 ∨ conversions / traffic = 1 then none
  else
    some ((List.range 6).map fun w =>
      ⟨w + 1,
        if (bisect
            (standardNormalInverseCdf (1 - (1 - conf) / 2) +
              standardNormalInverseCdf (1 - (1 - pow)))
            (conversions / traffic)
            (traffic / 7 * (((w : ℝ) + 1) * 7) / 2) 100 ((0, 5))).2 < 5 then
          some (bisect
            (standardNormalInverseCdf (1 - (1 - conf) / 2) +
              standardNormalInverseCdf (1 - (1 - pow)))
            (conversions / traffic)
            (traffic / 7 * (((w : ℝ) + 1) * 7) / 2) 100 ((0, 5))).2
        else none⟩)

/-- One row of the closed-form planner's table (`src/docs/README.md`,
lines 676-679): a week count and the closed-form MDE value. -/
structure MdeRowCF where
  weeks : ℕ
  mde : ℝ

/-- MDE planner, closed-form variant with dynamic Z-scores, embedding the
`preTestResults` computation of the `PreTestAnalysis` component in
`src/docs/README.md` (lines 650-682): same validation (percentages already
divided by 100), empty table on a degenerate baseline rate, else for each
of 6 week counts the symmetric-variance closed-form
`MDE = (Z_ALPHA+Z_BETA)/p · sqrt(2·p·(1−p)/n)` with
`n = traffic·weeks/2`. -/
noncomputable def planMdeClosedForm (traffic conversions conf pow : ℝ) :
    Option (List MdeRowCF) :=
  if traffic ≤ 0 ∨ conversions < 0 ∨ conversions > traffic ∨
      conf ≤ 0 ∨ conf ≥ 1 ∨ pow ≤ 0 ∨ pow ≥ 1 then none
  else if conversions / traffic = 0 ∨ conversions / traffic = 1 then some []
  else
    some ((List.range 6).map fun w =>
      ⟨w + 1,
        (standardNormalInverseCdf (1 - (1 - conf) / 2) +
            standardNormalInverseCdf (1 - (1 - pow))) / (conversions / traffic) *
          Real.sqrt (2 * (conversions / traffic) * (1 - conversions / traffic) /
            (traffic * ((w : ℝ) + 1) / 2))⟩)

/-- C7.  The bisection planner rejects (returns no table) exactly when the
input is invalid or the baseline rate is degenerate, and otherwise returns
the 6-row table. -/
theorem planMde_validation (traffic conversions conf pow : ℝ) :
    (planMde traffic conversions conf pow = none ↔
      traffic ≤ 0 ∨ conversions < 0 ∨ conversions > traffic ∨
        conf ≤ 0 ∨ conf ≥ 1 ∨ pow ≤ 0 ∨ pow ≥ 1 ∨
        conversions / traffic = 0 ∨ conversions / traffic = 1) ∧
    (¬(traffic ≤ 0 ∨ conversions < 0 ∨ conversions > traffic ∨
        conf ≤ 0 ∨ conf ≥ 1 ∨ pow ≤ 0 ∨ pow ≥ 1 ∨
        conversions / traffic = 0 ∨ conversions / traffic = 1) →
      ∃ rows, planMde traffic conversions conf pow = some rows ∧ rows.length = 6) := by
  unfold planMde
  by_cases h1 : traffic ≤ 0 ∨ conversions < 0 ∨ conversions > traffic ∨
      conf ≤ 0 ∨ conf ≥ 1 ∨ pow ≤ 0 ∨ pow ≥ 1
  · rw [if_pos h1]
    constructor
    · simp only [true_iff]
      tauto
    · intro hn
      exact absurd h1 (by tauto)
  · rw [if_neg h1]
    by_cases h2 : conversions / traffic = 0 ∨ conversions / traffic = 1
    · rw [if_pos h2]
      constructor
      · simp only [true_iff]
        tauto
      · intro hn
        exact absurd h2 (by tauto)
    · rw [if_neg h2]
      constructor
      · constructor
        · intro h
          exact absurd h (by simp)
        · intro h
          exact absurd h (by tauto)
      · intro _
        exact ⟨_, rfl, by simp⟩

/-- Witness for C7: the input (traffic, conversions, confidence, power) =
(4, 1, 0.5, 0.75) passes validation and yields a 6-row table. -/
theorem planMde_validation_witness :
    ¬((4:ℝ) ≤ 0 ∨ (1:ℝ) < 0 ∨ (1:ℝ) > 4 ∨ (1/2:ℝ) ≤ 0 ∨ (1/2:ℝ) ≥ 1 ∨
        (3/4:ℝ) ≤ 0 ∨ (3/4:ℝ) ≥ 1 ∨ (1:ℝ) / 4 = 0 ∨ (1:ℝ) / 4 = 1) ∧
      ∃ rows, planMde 4 1 (1/2) (3/4) = some rows ∧ rows.length = 6 := by
  have hn : ¬((4:ℝ) ≤ 0 ∨ (1:ℝ) < 0 ∨ (1:ℝ) > 4 ∨ (1/2:ℝ) ≤ 0 ∨ (1/2:ℝ) ≥ 1 ∨
      (3/4:ℝ) ≤ 0 ∨ (3/4:ℝ) ≥ 1 ∨ (1:ℝ) / 4 = 0 ∨ (1:ℝ) / 4 = 1) := by norm_num
  exact ⟨hn, (planMde_validation 4 1 (1/2) (3/4)).2 hn⟩

/-- Value of the duration-projection fields of the extended analysis
(`src/docs/README.md`, lines 160-161): JavaScript `null`, the string
`N/A`, or a number. -/
inductive ExtVal where
  | null : ExtVal
  | na : ExtVal
  | num : ℝ → ExtVal

/-- Result record of the extended `TestAnalysis` computation of
`src/docs/README.md` (line 204).  In this variant `confidence` and
`pValue` are always assigned a number before the record is built. -/
structure SignificanceResultExt where
  convRateA : ℝ
  convRateB : ℝ
  uplift : ℝ
  confidence : ℝ
  isSignificant : Bool
  pValue : ℝ
  additionalDaysNeeded : ExtVal
  projectedTotalDuration : ExtVal

/-- Per-variation sample size needed for significance, embedding the
`requiredNPerVariation` constant of the extended `TestAnalysis`
(`src/docs/README.md`, line 181), with `Z_ALPHA = inv(1 - 0.05/2)` and
`Z_BETA = inv(1 - 0.2)` (lines 175-176), `p1 = convRateA`,
`p2 = convRateB` and the pooled probability `(cA+cB)/(vA+vB)`. -/
noncomputable def requiredNPerVariation (vA cA vB cB : ℝ) : ℝ :=
  (standardNormalInverseCdf (1 - 0.05 / 2) *
      Real.sqrt (2 * ((cA + cB) / (vA + vB)) * (1 - (cA + cB) / (vA + vB))) +
    standardNormalInverseCdf (1 - 0.2) *
      Real.sqrt (cA / vA * (1 - cA / vA) + cB / vB * (1 - cB / vB))) ^ 2 /
  (cA / vA - cB / vB) ^ 2

/-- Total days required, embedding `requiredTotalDays` of
`src/docs/README.md` (lines 186-187): the required total visitors
(`requiredNPerVariation * 2`) divided by the observed visitors per day
(`(vA+vB)/duration`), rounded up with `Math.ceil`. -/
noncomputable def requiredTotalDays (vA cA vB cB duration : ℝ) : ℝ :=
  ((⌈requiredNPerVariation vA cA vB cB * 2 / ((vA + vB) / duration)⌉ : ℤ) : ℝ)

/-- Additional days needed, embedding `extraDays`/`additionalDaysNeeded`
of `src/docs/README.md` (lines 188-189): the excess of the required days
over the elapsed duration, clamped at `0`. -/
noncomputable def additionalDaysNeededVal (vA cA vB cB duration : ℝ) : ℝ :=
  if requiredTotalDays vA cA vB cB duration - duration > 0 then
    requiredTotalDays vA cA vB cB duration - duration
  else 0

/-- Extended two-proportion Z-test with duration projection, embedding the
`results` computation of the `TestAnalysis` component in
`src/docs/README.md` (lines 141-205): same validation; uplift without the
zero-rate short-circuit of the `page.tsx` variant; confidence and p-value
by the `stdError > 0` branch split; and, when a positive duration with
non-degenerate unequal rates is supplied, the additional-days and
projected-duration fields (`N/A` when the derived visitors-per-day rate is
not positive, `null` when the projection condition fails). -/
noncomputable def analyzeSignificanceWithDuration (vA cA vB cB duration : ℝ) :
    Option SignificanceResultExt :=
  if vA ≤ 0 ∨ cA < 0 ∨ vB ≤ 0 ∨ cB < 0 ∨ cA > vA ∨ cB > vB then none
  else
    some ⟨cA / vA, cB / vB, (cB / vB - cA / vA) / (cA / vA),
      if Real.sqrt ((cA + cB) / (vA + vB) * (1 - (cA + cB) / (vA + vB)) * (1 / vA + 1 / vB))
          > 0 then
        1 - 2 * (1 - standardNormalCdf |(cB / vB - cA / vA) /
          Real.sqrt ((cA + cB) / (vA + vB) * (1 - (cA + cB) / (vA + vB)) * (1 / vA + 1 / vB))|)
      else if cA / vA = cB / vB then 0.5 else if cB / vB > cA / vA then 1 else 0,
      if Real.sqrt ((cA + cB) / (vA + vB) * (1 - (cA + cB) / (vA + vB)) * (1 / vA + 1 / vB))
          > 0 then
        (if 1 - 2 * (1 - standardNormalCdf |(cB / vB - cA / vA) /
            Real.sqrt ((cA + cB) / (vA + vB) * (1 - (cA + cB) / (vA + vB)) * (1 / vA + 1 / vB))|)
            ≥ 0.95 then true else false)
      else false,
      if Real.sqrt ((cA + cB) / (vA + vB) * (1 - (cA + cB) / (vA + vB)) * (1 / vA + 1 / vB))
          > 0 then
        2 * (1 - standardNormalCdf |(cB / vB - cA / vA) /
          Real.sqrt ((cA + cB) / (vA + vB) * (1 - (cA + cB) / (vA + vB)) * (1 / vA + 1 / vB))|)
      else if cA / vA = cB / vB then 1 else 0,
      if duration > 0 ∧ cA / vA > 0 ∧ cA / vA < 1 ∧ cB / vB > 0 ∧ cB / vB < 1 ∧
          cA / vA ≠ cB / vB then
        (if (vA + vB) / duration > 0 then
          ExtVal.num (additionalDaysNeededVal vA cA vB cB duration)
        else ExtVal.na)
      else ExtVal.null,
      if duration > 0 ∧ cA / vA > 0 ∧ cA / vA < 1 ∧ cB / vB > 0 ∧ cB / vB < 1 ∧
          cA / vA ≠ cB / vB then
        (if (vA + vB) / duration > 0 then
          ExtVal.num (duration + additionalDaysNeededVal vA cA vB cB duration)
        else ExtVal.na)
      else ExtVal.null⟩

/-- Clamping at zero is the stated `max`. -/
theorem ite_pos_eq_max (y : ℝ) : (if y > 0 then y else 0) = max 0 y := by
  rcases le_total y 0 with h | h
  · rw [if_neg (not_lt.2 h), max_eq_left h]
  · rcases eq_or_lt_of_le h with h0 | h0
    · rw [← h0]; simp
    · rw [if_pos h0, max_eq_right h]

/-- C8.  When a positive elapsed duration is supplied and both rates are
strictly inside `(0,1)` and unequal, the extended analysis reports
`additionalDaysNeeded = max 0 (requiredDays − elapsed)` and
`projectedTotalDuration = elapsed + additionalDaysNeeded`, where the
required days come from `requiredNPerVariation` with
`zAlpha = inverseCdf(0.975)`, `zBeta = inverseCdf(0.8)`, doubled to total
visitors and divided by the observed visitors-per-day rate (rounded up). -/
theorem duration_projection (vA cA vB cB duration : ℝ)
    (hval : ¬(vA ≤ 0 ∨ cA < 0 ∨ vB ≤ 0 ∨ cB < 0 ∨ cA > vA ∨ cB > vB))
    (hd : duration > 0)
    (hA0 : cA / vA > 0) (hA1 : cA / vA < 1) (hB0 : cB / vB > 0) (hB1 : cB / vB < 1)
    (hne : cA / vA ≠ cB / vB) :
    ∃ r, analyzeSignificanceWithDuration vA cA vB cB duration = some r ∧
      r.additionalDaysNeeded =
        ExtVal.num (max 0 (requiredTotalDays vA cA vB cB duration - duration)) ∧
      r.projectedTotalDuration =
        ExtVal.num (duration + max 0 (requiredTotalDays vA cA vB cB duration - duration)) ∧
      requiredNPerVariation vA cA vB cB =
        (standardNormalInverseCdf 0.975 *
            Real.sqrt (2 * ((cA + cB) / (vA + vB)) * (1 - (cA + cB) / (vA + vB))) +
          standardNormalInverseCdf 0.8 *
            Real.sqrt (cA / vA * (1 - cA / vA) + cB / vB * (1 - cB / vB))) ^ 2 /
        (cA / vA - cB / vB) ^ 2 ∧
      requiredTotalDays vA cA vB cB duration =
        ((⌈requiredNPerVariation vA cA vB cB * 2 / ((vA + vB) / duration)⌉ : ℤ) : ℝ) := by
  push_neg at hval
  obtain ⟨hvA, hcA, hvB, hcB, hAle, hBle⟩ := hval
  have hcond : duration > 0 ∧ cA / vA > 0 ∧ cA / vA < 1 ∧ cB / vB > 0 ∧ cB / vB < 1 ∧
      cA / vA ≠ cB / vB := ⟨hd, hA0, hA1, hB0, hB1, hne⟩
  have htv : (vA + vB) / duration > 0 := by positivity
  unfold analyzeSignificanceWithDuration
  rw [if_neg (by push_neg; exact ⟨hvA, hcA, hvB, hcB, hAle, hBle⟩)]
  refine ⟨_, rfl, ?_, ?_, ?_, rfl⟩
  · simp only [if_pos hcond, if_pos htv, additionalDaysNeededVal, ite_pos_eq_max]
  · simp only [if_pos hcond, if_pos htv, additionalDaysNeededVal, ite_pos_eq_max]
  · norm_num [requiredNPerVariation]

/-- Witness for C8 at the concrete input (1000, 100, 1000, 120) with a
14-day elapsed duration. -/
theorem duration_projection_witness :
    ∃ r, analyzeSignificanceWithDuration 1000 100 1000 120 14 = some r ∧
      r.additionalDaysNeeded =
        ExtVal.num (max 0 (requiredTotalDays 1000 100 1000 120 14 - 14)) ∧
      r.projectedTotalDuration =
        ExtVal.num (14 + max 0 (requiredTotalDays 1000 100 1000 120 14 - 14)) ∧
      requiredNPerVariation 1000 100 1000 120 =
        (standardNormalInverseCdf 0.975 *
            Real.sqrt (2 * (((100:ℝ) + 120) / (1000 + 1000)) * (1 - (100 + 120) / (1000 + 1000))) +
          standardNormalInverseCdf 0.8 *
            Real.sqrt ((100:ℝ) / 1000 * (1 - 100 / 1000) + 120 / 1000 * (1 - 120 / 1000))) ^ 2 /
        ((100:ℝ) / 1000 - 120 / 1000) ^ 2 ∧
      requiredTotalDays 1000 100 1000 120 14 =
        ((⌈requiredNPerVariation 1000 100 1000 120 * 2 / (((1000:ℝ) + 1000) / 14)⌉ : ℤ) : ℝ) :=
  duration_projection 1000 100 1000 120 14 (by norm_num) (by norm_num)
    (by norm_num) (by norm_num) (by norm_num) (by norm_num) (by norm_num)

/-- Monomial interval bounds used to evaluate the Acklam rational
approximation at concrete points. -/
theorem pow_bounds_of_le {l q u : ℝ} (h0 : 0 ≤ l) (hl : l ≤ q) (hu : q ≤ u) (n : ℕ) :
    l ^ n ≤ q ^ n ∧ q ^ n ≤ u ^ n :=
  ⟨pow_le_pow_left h0 hl n, pow_le_pow_left (le_trans h0 hl) hu n⟩

/-- The logarithm of `1/4` in terms of `log 2`. -/
theorem log_one_quarter : Real.log ((1:ℝ)/4) = -(2 * Real.log 2) := by
  rw [show ((1:ℝ)/4) = ((4:ℝ))⁻¹ by norm_num, Real.log_inv,
    show (4:ℝ) = 2 ^ (2:ℕ) by norm_num, Real.log_pow]
  push_cast
  ring

/-- The logarithm of `1/16` in terms of `log 2`. -/
theorem log_one_sixteenth : Real.log ((1:ℝ)/16) = -(4 * Real.log 2) := by
  rw [show ((1:ℝ)/16) = ((16:ℝ))⁻¹ by norm_num, Real.log_inv,
    show (16:ℝ) = 2 ^ (4:ℕ) by norm_num, Real.log_pow]
  push_cast
  ring

/-- Interval location of `sqrt(4·log 2)`, the Acklam variable `q` at
`p = 3/4`. -/
theorem sqrt_four_log_two_bounds :
    1.66510 ≤ Real.sqrt (4 * Real.log 2) ∧ Real.sqrt (4 * Real.log 2) ≤ 1.66512 := by
  have hlo := Real.log_two_gt_d9
  have hhi := Real.log_two_lt_d9
  constructor
  · rw [Real.le_sqrt (by norm_num) (by positivity)]
    nlinarith
  · rw [show (1.66512:ℝ) = Real.sqrt (1.66512 ^ 2) from (Real.sqrt_sq (by norm_num)).symm]
    apply Real.sqrt_le_sqrt
    nlinarith

/-- Interval location of `sqrt(8·log 2)`, the Acklam variable `q` at
`p = 1/16`. -/
theorem sqrt_eight_log_two_bounds :
    2.35481 ≤ Real.sqrt (8 * Real.log 2) ∧ Real.sqrt (8 * Real.log 2) ≤ 2.35483 := by
  have hlo := Real.log_two_gt_d9
  have hhi := Real.log_two_lt_d9
  constructor
  · rw [Real.le_sqrt (by norm_num) (by positivity)]
    nlinarith
  · rw [show (2.35483:ℝ) = Real.sqrt (2.35483 ^ 2) from (Real.sqrt_sq (by norm_num)).symm]
    apply Real.sqrt_le_sqrt
    nlinarith

/-- Bounds on the code's inverse CDF at `3/4`: it lies in `[0, 0.7]`
(its value is about `0.6745`). -/
theorem inv_three_quarters_bounds :
    0 ≤ standardNormalInverseCdf (3/4) ∧ standardNormalInverseCdf (3/4) ≤ 0.7 := by
  unfold standardNormalInverseCdf
  rw [if_neg (by norm_num), if_neg (by norm_num)]
  rw [show ((1:ℝ) - 3/4) = 1/4 by norm_num, log_one_quarter,
    show (-2:ℝ) * -(2 * Real.log 2) = 4 * Real.log 2 by ring]
  obtain ⟨hql, hqh⟩ := sqrt_four_log_two_bounds
  set q := Real.sqrt (4 * Real.log 2) with hqdef
  have hq0 : (0:ℝ) ≤ 1.66510 := by norm_num
  obtain ⟨h2l, h2h⟩ := pow_bounds_of_le hq0 hql hqh 2
  obtain ⟨h3l, h3h⟩ := pow_bounds_of_le hq0 hql hqh 3
  obtain ⟨h4l, h4h⟩ := pow_bounds_of_le hq0 hql hqh 4
  obtain ⟨h5l, h5h⟩ := pow_bounds_of_le hq0 hql hqh 5
  have hqpos : (0:ℝ) < q := by linarith
  have hden : (0:ℝ) <
      (((0.007784695709041462 * q + 0.3224671290700398) * q + 2.445134137142996) * q +
        3.754408661907416) * q + 1 := by positivity
  constructor
  · rw [← neg_div]
    apply div_nonneg
    · nlinarith
    · linarith
  · rw [← neg_div, div_le_iff hden]
    nlinarith

/-- Upper bound on the code's inverse CDF at `1/16`: it is at most `-0.8`
(its value is about `-1.516`). -/
theorem inv_one_sixteenth_le :
    standardNormalInverseCdf (1/16) ≤ -(0.8) := by
  unfold standardNormalInverseCdf
  rw [if_neg (by norm_num), if_pos (by norm_num)]
  rw [log_one_sixteenth, show (-2:ℝ) * -(4 * Real.log 2) = 8 * Real.log 2 by ring]
  obtain ⟨hql, hqh⟩ := sqrt_eight_log_two_bounds
  set q := Real.sqrt (8 * Real.log 2) with hqdef
  have hq0 : (0:ℝ) ≤ 2.35481 := by norm_num
  obtain ⟨h2l, h2h⟩ := pow_bounds_of_le hq0 hql hqh 2
  obtain ⟨h3l, h3h⟩ := pow_bounds_of_le hq0 hql hqh 3
  obtain ⟨h4l, h4h⟩ := pow_bounds_of_le hq0 hql hqh 4
  obtain ⟨h5l, h5h⟩ := pow_bounds_of_le hq0 hql hqh 5
  have hden : ((((((-54.47609879822406) * q + 161.5858368580409) * q + (-155.6989798598866)) * q +
      66.80131188771972) * q + (-13.28068155288572)) * q + 1) < 0 := by
    nlinarith
  rw [div_le_iff_of_neg hden]
  nlinarith

/-- The CDF approximation at `0` evaluates exactly to the rational
`0.5000000005`: the quintic coefficients sum to `0.999999999`, not to `1`. -/
theorem cdf_zero_eq : standardNormalCdf 0 = 0.5000000005 := by
  unfold standardNormalCdf polyA
  norm_num [Real.exp_zero]

/-- Bounds on the inverse CDF at the value `cdf 0 = 0.5000000005`: the
roundtrip at `z = 0` produces a positive number below `0.001` (its value
is about `1.66·10⁻⁴`, the Acklam tail formula being applied at the centre
of the distribution). -/
theorem inv_cdf_zero_bounds :
    0 < standardNormalInverseCdf (standardNormalCdf 0) ∧
      standardNormalInverseCdf (standardNormalCdf 0) < 0.001 := by
  rw [cdf_zero_eq]
  unfold standardNormalInverseCdf
  rw [if_neg (by norm_num), if_neg (by norm_num)]
  have hx : ((1:ℝ) - 0.5000000005) = 999999999 / 2000000000 := by norm_num
  rw [hx]
  have hsplit : (999999999 / 2000000000 : ℝ) = (1/2) * (999999999 / 1000000000) := by norm_num
  have hxpos : (0:ℝ) < 999999999 / 1000000000 := by norm_num
  have hlog_up : Real.log ((999999999:ℝ) / 1000000000) ≤ -(1 / 1000000000) := by
    have := Real.log_le_sub_one_of_pos hxpos
    linarith
  have hlog_lo : -(1 / 999999999) ≤ Real.log ((999999999:ℝ) / 1000000000) := by
    have hinv : Real.log (((999999999:ℝ) / 1000000000)⁻¹) ≤ ((999999999:ℝ) / 1000000000)⁻¹ - 1 :=
      Real.log_le_sub_one_of_pos (by positivity)
    rw [Real.log_inv] at hinv
    have : ((999999999:ℝ) / 1000000000)⁻¹ = 1000000000 / 999999999 := by norm_num
    rw [this] at hinv
    have h9 : (1000000000:ℝ) / 999999999 - 1 = 1 / 999999999 := by norm_num
    rw [h9] at hinv
    linarith
  have hlog2_lo := Real.log_two_gt_d9
  have hlog2_hi := Real.log_two_lt_d9
  have hlhalf : Real.log ((1:ℝ)/2) = -Real.log 2 := by
    rw [show ((1:ℝ)/2) = ((2:ℝ))⁻¹ by norm_num, Real.log_inv]
  have hlogsum : Real.log ((999999999:ℝ) / 2000000000) =
      -Real.log 2 + Real.log ((999999999:ℝ) / 1000000000) := by
    rw [hsplit, Real.log_mul (by norm_num) (by norm_num), hlhalf]
  have harg_lo : (1.3862943626:ℝ) ≤ -2 * Real.log ((999999999:ℝ) / 2000000000) := by
    rw [hlogsum]; nlinarith
  have harg_hi : -2 * Real.log ((999999999:ℝ) / 2000000000) ≤ (1.3862943637:ℝ) := by
    rw [hlogsum]; nlinarith
  have hql : (1.17741:ℝ) ≤ Real.sqrt (-2 * Real.log ((999999999:ℝ) / 2000000000)) := by
    rw [Real.le_sqrt (by norm_num) (by linarith)]
    nlinarith
  have hqh : Real.sqrt (-2 * Real.log ((999999999:ℝ) / 2000000000)) ≤ (1.17742:ℝ) := by
    rw [show (1.17742:ℝ) = Real.sqrt (1.17742 ^ 2) from (Real.sqrt_sq (by norm_num)).symm]
    apply Real.sqrt_le_sqrt
    nlinarith
  set q := Real.sqrt (-2 * Real.log ((999999999:ℝ) / 2000000000)) with hqdef
  have hq0 : (0:ℝ) ≤ 1.17741 := by norm_num
  obtain ⟨h2l, h2h⟩ := pow_bounds_of_le hq0 hql hqh 2
  obtain ⟨h3l, h3h⟩ := pow_bounds_of_le hq0 hql hqh 3
  obtain ⟨h4l, h4h⟩ := pow_bounds_of_le hq0 hql hqh 4
  obtain ⟨h5l, h5h⟩ := pow_bounds_of_le hq0 hql hqh 5
  have hqpos : (0:ℝ) < q := by linarith
  have hden : (0:ℝ) <
      (((0.007784695709041462 * q + 0.3224671290700398) * q + 2.445134137142996) * q +
        3.754408661907416) * q + 1 := by positivity
  constructor
  · rw [← neg_div]
    apply div_pos
    · nlinarith
    · linarith
  · rw [← neg_div, div_lt_iff hden]
    nlinarith

/-- Counterexample for C1.  At `z = 0` (inside `[-4, 4]`) the roundtrip
`inverseCdf(cdf z)` is not within `10⁻³` relative tolerance of `z`: the
relative bound at `z = 0` demands an exact zero, but the roundtrip value is
positive (about `1.66·10⁻⁴`). -/
theorem inverse_roundtrip_counterexample :
    ¬(|standardNormalInverseCdf (standardNormalCdf 0) - 0| ≤ 0.001 * |(0:ℝ)|) := by
  intro h
  rw [abs_zero, mul_zero, sub_zero, abs_nonpos_iff] at h
  have h2 := inv_cdf_zero_bounds.1
  rw [h] at h2
  exact absurd h2 (by norm_num)

/-- C1 (amended).  The roundtrip through the code's approximations at
`z = 0` is not exact — the inverse applies Acklam's tail formula at the
centre of the distribution, so the relative-tolerance claim fails there —
but its error is positive and below `10⁻³` in absolute terms. -/
theorem inverse_roundtrip_at_zero :
    0 < standardNormalInverseCdf (standardNormalCdf 0) ∧
      standardNormalInverseCdf (standardNormalCdf 0) < 0.001 :=
  inv_cdf_zero_bounds

/-- One unfolding step of the bisection loop. -/
theorem bisect_succ (zSum p1 n : ℝ) (k : ℕ) (s : ℝ × ℝ) :
    bisect zSum p1 n (k + 1) s =
      if (s.1 + s.2) / 2 = 0 then s
      else if (n : EReal) < calculateRequiredN zSum p1 ((s.1 + s.2) / 2) then
        bisect zSum p1 n k (((s.1 + s.2) / 2, s.2))
      else bisect zSum p1 n k ((s.1, (s.1 + s.2) / 2)) := rfl

/-- The bisection loop with no remaining iterations returns its state. -/
theorem bisect_zero (zSum p1 n : ℝ) (s : ℝ × ℝ) : bisect zSum p1 n 0 s = s := rfl

/-- Sanity invariant of the bisection loop: from a state
`0 ≤ lo ≤ hi, 0 < hi`, the loop keeps `0 ≤ lo ≤ hi` and `0 < hi`, never
decreases `lo`, and never increases `hi`. -/
theorem bisect_sane (zSum p1 n : ℝ) :
    ∀ (k : ℕ) (s : ℝ × ℝ), 0 ≤ s.1 → s.1 ≤ s.2 → 0 < s.2 →
      0 ≤ (bisect zSum p1 n k s).1 ∧
        (bisect zSum p1 n k s).1 ≤ (bisect zSum p1 n k s).2 ∧
        0 < (bisect zSum p1 n k s).2 ∧
        s.1 ≤ (bisect zSum p1 n k s).1 ∧ (bisect zSum p1 n k s).2 ≤ s.2 := by
  intro k
  induction k with
  | zero =>
    intro s h1 h2 h3
    rw [bisect_zero]
    exact ⟨h1, h2, h3, le_refl _, le_refl _⟩
  | succ k ih =>
    intro s h1 h2 h3
    rw [bisect_succ]
    by_cases hmid : (s.1 + s.2) / 2 = 0
    · rw [if_pos hmid]
      exact ⟨h1, h2, h3, le_refl _, le_refl _⟩
    · rw [if_neg hmid]
      have hm0 : 0 ≤ (s.1 + s.2) / 2 := by linarith
      have hmlo : s.1 ≤ (s.1 + s.2) / 2 := by linarith
      have hmhi : (s.1 + s.2) / 2 ≤ s.2 := by linarith
      have hmpos : 0 < (s.1 + s.2) / 2 := lt_of_le_of_ne hm0 (Ne.symm hmid)
      by_cases hcmp : (n : EReal) < calculateRequiredN zSum p1 ((s.1 + s.2) / 2)
      · rw [if_pos hcmp]
        obtain ⟨a1, a2, a3, a4, a5⟩ := ih (((s.1 + s.2) / 2, s.2)) hm0 hmhi h3
        exact ⟨a1, a2, a3, le_trans hmlo a4, a5⟩
      · rw [if_neg hcmp]
        obtain ⟨a1, a2, a3, a4, a5⟩ := ih ((s.1, (s.1 + s.2) / 2)) h1 hmlo hmpos
        exact ⟨a1, a2, a3, a4, le_trans a5 hmhi⟩

/-- Detectability invariant of the bisection loop: if the upper end of the
final state has moved below the cap `c`, the required sample size at that
upper end is within the available sample size `n`. -/
theorem bisect_req (zSum p1 n c : ℝ) :
    ∀ (k : ℕ) (s : ℝ × ℝ), 0 ≤ s.1 → s.1 ≤ s.2 → 0 < s.2 →
      (s.2 < c → calculateRequiredN zSum p1 s.2 ≤ (n : EReal)) →
      ((bisect zSum p1 n k s).2 < c →
        calculateRequiredN zSum p1 (bisect zSum p1 n k s).2 ≤ (n : EReal)) := by
  intro k
  induction k with
  | zero =>
    intro s _ _ _ hinv
    rw [bisect_zero]
    exact hinv
  | succ k ih =>
    intro s h1 h2 h3 hinv
    rw [bisect_succ]
    by_cases hmid : (s.1 + s.2) / 2 = 0
    · rw [if_pos hmid]
      exact hinv
    · rw [if_neg hmid]
      have hm0 : 0 ≤ (s.1 + s.2) / 2 := by linarith
      have hmlo : s.1 ≤ (s.1 + s.2) / 2 := by linarith
      have hmhi : (s.1 + s.2) / 2 ≤ s.2 := by linarith
      have hmpos : 0 < (s.1 + s.2) / 2 := lt_of_le_of_ne hm0 (Ne.symm hmid)
      by_cases hcmp : (n : EReal) < calculateRequiredN zSum p1 ((s.1 + s.2) / 2)
      · rw [if_pos hcmp]
        exact ih (((s.1 + s.2) / 2, s.2)) hm0 hmhi h3 hinv
      · rw [if_neg hcmp]
        exact ih ((s.1, (s.1 + s.2) / 2)) h1 hmlo hmpos (fun _ => not_lt.mp hcmp)

/-- Comparison of two bisection runs over the same required-sample-size
function with available sample sizes `n1 ≤ n2`: started from equal sane
states, the runs either stay equal or separate with the `n2` run entirely
below the `n1` run. -/
theorem bisect_pair (zSum p1 : ℝ) {n1 n2 : ℝ} (hn : n1 ≤ n2) :
    ∀ (k : ℕ) (s1 s2 : ℝ × ℝ),
      0 ≤ s1.1 → s1.1 ≤ s1.2 → 0 < s1.2 →
      0 ≤ s2.1 → s2.1 ≤ s2.2 → 0 < s2.2 →
      (s1 = s2 ∨ s2.2 ≤ s1.1) →
      (bisect zSum p1 n1 k s1 = bisect zSum p1 n2 k s2 ∨
        (bisect zSum p1 n2 k s2).2 ≤ (bisect zSum p1 n1 k s1).1) := by
  intro k
  induction k with
  | zero =>
    intro s1 s2 _ _ _ _ _ _ hps
    rw [bisect_zero, bisect_zero]
    exact hps
  | succ k ih =>
    intro s1 s2 h11 h12 h13 h21 h22 h23 hps
    rcases hps with rfl | hsep
    · rw [bisect_succ, bisect_succ]
      by_cases hmid : (s1.1 + s1.2) / 2 = 0
      · rw [if_pos hmid, if_pos hmid]
        left
        rfl
      · rw [if_neg hmid, if_neg hmid]
        have hm0 : 0 ≤ (s1.1 + s1.2) / 2 := by linarith
        have hmlo : s1.1 ≤ (s1.1 + s1.2) / 2 := by linarith
        have hmhi : (s1.1 + s1.2) / 2 ≤ s1.2 := by linarith
        have hmpos : 0 < (s1.1 + s1.2) / 2 := lt_of_le_of_ne hm0 (Ne.symm hmid)
        by_cases hc2 : (n2 : EReal) < calculateRequiredN zSum p1 ((s1.1 + s1.2) / 2)
        · have hc1 : (n1 : EReal) < calculateRequiredN zSum p1 ((s1.1 + s1.2) / 2) :=
            lt_of_le_of_lt (EReal.coe_le_coe_iff.mpr hn) hc2
          rw [if_pos hc1, if_pos hc2]
          exact ih _ _ hm0 hmhi h13 hm0 hmhi h13 (Or.inl rfl)
        · by_cases hc1 : (n1 : EReal) < calculateRequiredN zSum p1 ((s1.1 + s1.2) / 2)
          · rw [if_pos hc1, if_neg hc2]
            exact ih _ _ hm0 hmhi h13 h11 hmlo hmpos (Or.inr (le_refl _))
          · rw [if_neg hc1, if_neg hc2]
            exact ih _ _ h11 hmlo hmpos h11 hmlo hmpos (Or.inl rfl)
    · right
      have hA := bisect_sane zSum p1 n1 (k + 1) s1 h11 h12 h13
      have hB := bisect_sane zSum p1 n2 (k + 1) s2 h21 h22 h23
      calc (bisect zSum p1 n2 (k + 1) s2).2 ≤ s2.2 := hB.2.2.2.2
        _ ≤ s1.1 := hsep
        _ ≤ (bisect zSum p1 n1 (k + 1) s1).1 := hA.2.2.2.1

/-- C10.  Every numeric MDE reported by the bisection planner lies strictly
between `0` and the search ceiling `5`, and its required sample size is at
most the available per-variation sample size `traffic·weeks/2`. -/
theorem bisection_row_invariant (traffic conversions conf pow : ℝ) (rows : List MdeRow)
    (hr : planMde traffic conversions conf pow = some rows)
    (i : ℕ) (hilen : i < rows.length) (m : ℝ)
    (hm : (rows.get ⟨i, hilen⟩).mde = some m) :
    0 < m ∧ m < 5 ∧
      calculateRequiredN
        (standardNormalInverseCdf (1 - (1 - conf) / 2) + standardNormalInverseCdf (1 - (1 - pow)))
        (conversions / traffic) m ≤ ((traffic * ((i : ℝ) + 1) / 2 : ℝ) : EReal) := by
  unfold planMde at hr
  by_cases h1 : traffic ≤ 0 ∨ conversions < 0 ∨ conversions > traffic ∨
      conf ≤ 0 ∨ conf ≥ 1 ∨ pow ≤ 0 ∨ pow ≥ 1
  · rw [if_pos h1] at hr
    exact absurd hr (by simp)
  rw [if_neg h1] at hr
  by_cases h2 : conversions / traffic = 0 ∨ conversions / traffic = 1
  · rw [if_pos h2] at hr
    exact absurd hr (by simp)
  rw [if_neg h2] at hr
  injection hr with hr
  subst hr
  simp only [List.get_eq_getElem, List.getElem_map, List.getElem_range] at hm
  set S := standardNormalInverseCdf (1 - (1 - conf) / 2) +
    standardNormalInverseCdf (1 - (1 - pow)) with hS
  set n := traffic / 7 * (((i : ℝ) + 1) * 7) / 2 with hn
  by_cases hlt : (bisect S (conversions / traffic) n 100 ((0, 5))).2 < 5
  · rw [if_pos hlt] at hm
    injection hm with hm
    subst hm
    have hsane := bisect_sane S (conversions / traffic) n 100 ((0, 5))
      (by norm_num) (by norm_num) (by norm_num)
    have hreq := bisect_req S (conversions / traffic) n 5 100 ((0, 5))
      (by norm_num) (by norm_num) (by norm_num) (by norm_num) hlt
    refine ⟨hsane.2.2.1, hlt, ?_⟩
    have heq : n = traffic * ((i : ℝ) + 1) / 2 := by rw [hn]; ring
    rw [← heq]
    exact hreq
  · rw [if_neg hlt] at hm
    exact absurd hm (by simp)

/-- The table produced by the bisection planner at the witness input
(traffic, conversions, confidence, power) = (4, 1, 0.5, 0.75). -/
noncomputable def mdeRowsW : List MdeRow :=
  (List.range 6).map fun w =>
    ⟨w + 1,
      if (bisect
          (standardNormalInverseCdf (1 - (1 - 1 / 2) / 2) +
            standardNormalInverseCdf (1 - (1 - 3 / 4)))
          (1 / 4) (4 / 7 * (((w : ℝ) + 1) * 7) / 2) 100 ((0, 5))).2 < 5 then
        some (bisect
          (standardNormalInverseCdf (1 - (1 - 1 / 2) / 2) +
            standardNormalInverseCdf (1 - (1 - 3 / 4)))
          (1 / 4) (4 / 7 * (((w : ℝ) + 1) * 7) / 2) 100 ((0, 5))).2
      else none⟩

/-- The witness table has six rows. -/
theorem mdeRowsW_length : 0 < mdeRowsW.length := by
  simp [mdeRowsW]

/-- The planner at the witness input produces the witness table. -/
theorem planMde_witness_eq : planMde 4 1 (1 / 2) (3 / 4) = some mdeRowsW := by
  unfold planMde mdeRowsW
  rw [if_neg (by norm_num), if_neg (by norm_num)]

/-- Final upper end of the bisection at the witness input, week 1. -/
noncomputable def bisWitnessHi : ℝ :=
  (bisect
    (standardNormalInverseCdf (1 - (1 - 1 / 2) / 2) +
      standardNormalInverseCdf (1 - (1 - 3 / 4)))
    (1 / 4) (4 / 7 * ((((0 : ℕ) : ℝ) + 1) * 7) / 2) 100 ((0, 5))).2

/-- The week-1 bisection at the witness input accepts the first midpoint
`2.5` (its required sample size is within the available `2` per variation),
so its final upper end is at most `2.5`. -/
theorem bisWitnessHi_le : bisWitnessHi ≤ 5 / 2 := by
  obtain ⟨hz0, hz7⟩ := inv_three_quarters_bounds
  unfold bisWitnessHi
  rw [show (1 - (1 - 1 / 2) / 2 : ℝ) = 3 / 4 by norm_num,
    show (1 - (1 - 3 / 4) : ℝ) = 3 / 4 by norm_num]
  rw [show (100 : ℕ) = 99 + 1 from rfl, bisect_succ]
  rw [if_neg (by norm_num)]
  have hreq : calculateRequiredN
      (standardNormalInverseCdf (3 / 4) + standardNormalInverseCdf (3 / 4)) (1 / 4)
      ((((0 : ℝ), (5 : ℝ)).1 + ((0 : ℝ), (5 : ℝ)).2) / 2) ≤
      ((4 / 7 * ((((0 : ℕ) : ℝ) + 1) * 7) / 2 : ℝ) : EReal) := by
    unfold calculateRequiredN
    rw [if_neg (by norm_num), if_neg (by norm_num), if_neg (by norm_num)]
    rw [EReal.coe_le_coe_iff]
    have hzz : standardNormalInverseCdf (3 / 4) * standardNormalInverseCdf (3 / 4) ≤
        0.7 * 0.7 := mul_le_mul hz7 hz7 hz0 (by norm_num)
    norm_num
    nlinarith [hzz, hz0, hz7]
  rw [if_neg (not_lt.mpr hreq)]
  have hs := bisect_sane
    (standardNormalInverseCdf (3 / 4) + standardNormalInverseCdf (3 / 4)) (1 / 4)
    (4 / 7 * ((((0 : ℕ) : ℝ) + 1) * 7) / 2) 99
    ((((0 : ℝ), (5 : ℝ)).1, (((0 : ℝ), (5 : ℝ)).1 + ((0 : ℝ), (5 : ℝ)).2) / 2))
    (by norm_num) (by norm_num) (by norm_num)
  have h2 := hs.2.2.2.2
  norm_num at h2 ⊢
  exact h2

/-- The week-1 row of the witness table reports the numeric MDE
`bisWitnessHi`. -/
theorem mdeRowsW_zero : (mdeRowsW.get ⟨0, mdeRowsW_length⟩).mde = some bisWitnessHi := by
  have hlt : bisWitnessHi < 5 := lt_of_le_of_lt bisWitnessHi_le (by norm_num)
  unfold bisWitnessHi at hlt
  simp only [mdeRowsW, List.get_eq_getElem, List.getElem_map, List.getElem_range]
  rw [if_pos hlt]
  rfl

/-- Witness for C10 at the input (4, 1, 0.5, 0.75), week 1: the reported
MDE is strictly between 0 and 5 and its required sample size is within the
available `traffic·weeks/2 = 2`. -/
theorem bisection_row_invariant_witness :
    planMde 4 1 (1 / 2) (3 / 4) = some mdeRowsW ∧
      (mdeRowsW.get ⟨0, mdeRowsW_length⟩).mde = some bisWitnessHi ∧
      (0 < bisWitnessHi ∧ bisWitnessHi < 5 ∧
        calculateRequiredN
          (standardNormalInverseCdf (1 - (1 - 1 / 2) / 2) +
            standardNormalInverseCdf (1 - (1 - 3 / 4)))
          ((1 : ℝ) / 4) bisWitnessHi ≤ ((4 * (((0 : ℕ) : ℝ) + 1) / 2 : ℝ) : EReal)) :=
  ⟨planMde_witness_eq, mdeRowsW_zero,
    bisection_row_invariant 4 1 (1 / 2) (3 / 4) mdeRowsW planMde_witness_eq 0
      mdeRowsW_length bisWitnessHi mdeRowsW_zero⟩

/-- C2 (amended).  The MDE sequence is non-increasing in the week count:
unconditionally for the bisection planner (moreover a found row stays found
at longer durations), and for the closed-form planner under the additional
hypothesis that the Z-score sum `zAlpha + zBeta` is nonnegative (which the
counterexample shows cannot be dropped). -/
theorem mde_sequence_monotone :
    (∀ (traffic conversions conf pow : ℝ) (rows : List MdeRow),
        planMde traffic conversions conf pow = some rows →
        ∀ (i : ℕ) (h : i + 1 < rows.length) (mi : ℝ),
          (rows.get ⟨i, Nat.lt_of_succ_lt h⟩).mde = some mi →
          ∃ mj, (rows.get ⟨i + 1, h⟩).mde = some mj ∧ mj ≤ mi) ∧
      (∀ (traffic conversions conf pow : ℝ) (rows : List MdeRowCF),
        0 ≤ standardNormalInverseCdf (1 - (1 - conf) / 2) +
            standardNormalInverseCdf (1 - (1 - pow)) →
        planMdeClosedForm traffic conversions conf pow = some rows →
        ∀ (i : ℕ) (h : i + 1 < rows.length),
          (rows.get ⟨i + 1, h⟩).mde ≤ (rows.get ⟨i, Nat.lt_of_succ_lt h⟩).mde) := by
  constructor
  · intro traffic conversions conf pow rows hr i h mi hmi
    unfold planMde at hr
    by_cases h1 : traffic ≤ 0 ∨ conversions < 0 ∨ conversions > traffic ∨
        conf ≤ 0 ∨ conf ≥ 1 ∨ pow ≤ 0 ∨ pow ≥ 1
    · rw [if_pos h1] at hr
      exact absurd hr (by simp)
    rw [if_neg h1] at hr
    by_cases h2 : conversions / traffic = 0 ∨ conversions / traffic = 1
    · rw [if_pos h2] at hr
      exact absurd hr (by simp)
    rw [if_neg h2] at hr
    injection hr with hr
    subst hr
    push_neg at h1
    have htr : 0 < traffic := h1.1
    simp only [List.get_eq_getElem, List.getElem_map, List.getElem_range] at hmi ⊢
    set S := standardNormalInverseCdf (1 - (1 - conf) / 2) +
      standardNormalInverseCdf (1 - (1 - pow)) with hSdef
    set n1 := traffic / 7 * (((i : ℝ) + 1) * 7) / 2 with hn1
    set n2 := traffic / 7 * ((((i : ℕ) + 1 : ℕ) : ℝ) + 1) * 7 / 2 with hn2
    by_cases hlt : (bisect S (conversions / traffic) n1 100 ((0, 5))).2 < 5
    · rw [if_pos hlt] at hmi
      injection hmi with hmi
      subst hmi
      have hn12 : n1 ≤ traffic / 7 * (((((i : ℕ) + 1 : ℕ) : ℝ) + 1) * 7) / 2 := by
        rw [hn1]
        push_cast
        nlinarith
      have hpair := bisect_pair S (conversions / traffic) hn12 100 ((0, 5)) ((0, 5))
        (by norm_num) (by norm_num) (by norm_num) (by norm_num) (by norm_num) (by norm_num)
        (Or.inl rfl)
      have hsane1 := bisect_sane S (conversions / traffic) n1 100 ((0, 5))
        (by norm_num) (by norm_num) (by norm_num)
      rcases hpair with heq | hsep
      · have h22 : (bisect S (conversions / traffic)
            (traffic / 7 * (((((i : ℕ) + 1 : ℕ) : ℝ) + 1) * 7) / 2) 100 ((0, 5))).2 =
            (bisect S (conversions / traffic) n1 100 ((0, 5))).2 := by rw [← heq]
        rw [if_pos (by rw [h22]; exact hlt)]
        exact ⟨_, rfl, le_of_eq h22⟩
      · have hle : (bisect S (conversions / traffic)
            (traffic / 7 * (((((i : ℕ) + 1 : ℕ) : ℝ) + 1) * 7) / 2) 100 ((0, 5))).2 ≤
            (bisect S (conversions / traffic) n1 100 ((0, 5))).2 :=
          le_trans hsep hsane1.2.1
        rw [if_pos (lt_of_le_of_lt hle hlt)]
        exact ⟨_, rfl, hle⟩
    · rw [if_neg hlt] at hmi
      exact absurd hmi (by simp)
  · intro traffic conversions conf pow rows hz hr i h
    unfold planMdeClosedForm at hr
    by_cases h1 : traffic ≤ 0 ∨ conversions < 0 ∨ conversions > traffic ∨
        conf ≤ 0 ∨ conf ≥ 1 ∨ pow ≤ 0 ∨ pow ≥ 1
    · rw [if_pos h1] at hr
      exact absurd hr (by simp)
    rw [if_neg h1] at hr
    by_cases h2 : conversions / traffic = 0 ∨ conversions / traffic = 1
    · rw [if_pos h2] at hr
      injection hr with hr
      subst hr
      simp at h
    rw [if_neg h2] at hr
    injection hr with hr
    subst hr
    push_neg at h1
    obtain ⟨ht0, hc0, hct, _⟩ := h1
    have htr : 0 < traffic := ht0
    have hp0 : 0 ≤ conversions / traffic := by positivity
    have hppos : 0 < conversions / traffic :=
      lt_of_le_of_ne hp0 (fun hh => (not_or.mp h2).1 hh.symm)
    have hp1 : conversions / traffic ≤ 1 := by
      rw [div_le_one htr]
      exact hct
    simp only [List.get_eq_getElem, List.getElem_map, List.getElem_range]
    have hSp : 0 ≤ (standardNormalInverseCdf (1 - (1 - conf) / 2) +
        standardNormalInverseCdf (1 - (1 - pow))) / (conversions / traffic) :=
      div_nonneg hz (le_of_lt hppos)
    apply mul_le_mul_of_nonneg_left _ hSp
    apply Real.sqrt_le_sqrt
    have hA : 0 ≤ 2 * (conversions / traffic) * (1 - conversions / traffic) := by nlinarith
    have hd1 : 0 < traffic * ((i : ℝ) + 1) / 2 := by positivity
    have hdle : traffic * ((i : ℝ) + 1) / 2 ≤ traffic * ((((i : ℕ) + 1 : ℕ) : ℝ) + 1) / 2 := by
      push_cast
      nlinarith
    exact div_le_div_of_nonneg_left hA hd1 hdle

/-- Closed-form MDE at the counterexample input (2, 1, 0.5, 0.0625), as a
function of the row index. -/
noncomputable def cexMde (w : ℕ) : ℝ :=
  (standardNormalInverseCdf (1 - (1 - 1 / 2) / 2) +
      standardNormalInverseCdf (1 - (1 - 1 / 16))) / (1 / 2) *
    Real.sqrt (2 * (1 / 2) * (1 - 1 / 2) / (2 * ((w : ℝ) + 1) / 2))

/-- The closed-form table at the counterexample input. -/
noncomputable def cexTable : List MdeRowCF :=
  [⟨1, cexMde 0⟩, ⟨2, cexMde 1⟩, ⟨3, cexMde 2⟩, ⟨4, cexMde 3⟩, ⟨5, cexMde 4⟩, ⟨6, cexMde 5⟩]

/-- The closed-form planner at (2, 1, 0.5, 0.0625) produces `cexTable`. -/
theorem planMdeCF_cex_eq : planMdeClosedForm 2 1 (1 / 2) (1 / 16) = some cexTable := by
  unfold planMdeClosedForm cexTable cexMde
  rw [if_neg (by norm_num), if_neg (by norm_num)]
  rfl

/-- Counterexample for C2.  At the valid planning input
(traffic, conversions, confidence, power) = (2, 1, 0.5, 0.0625) — baseline
rate 0.5 strictly inside (0,1), both targets inside (0,1) — the closed-form
algorithm's MDE strictly increases from week 1 to week 2 (both values are
negative because `zAlpha + zBeta < 0` at 50% confidence and 6.25% power),
so the 6-entry sequence is not non-increasing under the closed-form
algorithm. -/
theorem mde_monotone_counterexample :
    planMdeClosedForm 2 1 (1 / 2) (1 / 16) = some cexTable ∧ cexMde 0 < cexMde 1 := by
  refine ⟨planMdeCF_cex_eq, ?_⟩
  have hz7 := inv_three_quarters_bounds.2
  have hz16 := inv_one_sixteenth_le
  unfold cexMde
  rw [show (1 - (1 - 1 / 2) / 2 : ℝ) = 3 / 4 by norm_num,
    show (1 - (1 - 1 / 16) : ℝ) = 1 / 16 by norm_num]
  have hS : standardNormalInverseCdf (3 / 4) + standardNormalInverseCdf (1 / 16) ≤
      -(1 / 10) := by linarith
  push_cast
  rw [show (2 * (1 / 2 : ℝ) * (1 - 1 / 2) / (2 * ((0 : ℝ) + 1) / 2)) = 1 / 2 by norm_num,
    show (2 * (1 / 2 : ℝ) * (1 - 1 / 2) / (2 * ((1 : ℝ) + 1) / 2)) = 1 / 4 by norm_num]
  rw [show (1 / 4 : ℝ) = (1 / 2) ^ 2 by norm_num, Real.sqrt_sq (by norm_num)]
  have hs : (1 / 2 : ℝ) < Real.sqrt (1 / 2) := by
    rw [Real.lt_sqrt (by norm_num)]
    norm_num
  nlinarith [mul_pos (sub_pos.mpr hs)
    (show (0 : ℝ) < -(standardNormalInverseCdf (3 / 4) + standardNormalInverseCdf (1 / 16)) by
      linarith)]

/-- Closed-form MDE at the witness input (2, 1, 0.5, 0.75). -/
noncomputable def cfMdeW (w : ℕ) : ℝ :=
  (standardNormalInverseCdf (1 - (1 - 1 / 2) / 2) +
      standardNormalInverseCdf (1 - (1 - 3 / 4))) / (1 / 2) *
    Real.sqrt (2 * (1 / 2) * (1 - 1 / 2) / (2 * ((w : ℝ) + 1) / 2))

/-- The closed-form table at the witness input. -/
noncomputable def cfRowsW : List MdeRowCF :=
  [⟨1, cfMdeW 0⟩, ⟨2, cfMdeW 1⟩, ⟨3, cfMdeW 2⟩, ⟨4, cfMdeW 3⟩, ⟨5, cfMdeW 4⟩, ⟨6, cfMdeW 5⟩]

/-- The closed-form planner at (2, 1, 0.5, 0.75) produces `cfRowsW`. -/
theorem planMdeCF_w_eq : planMdeClosedForm 2 1 (1 / 2) (3 / 4) = some cfRowsW := by
  unfold planMdeClosedForm cfRowsW cfMdeW
  rw [if_neg (by norm_num), if_neg (by norm_num)]
  rfl

/-- The bisection witness table has more than two rows. -/
theorem mdeRowsW_length2 : 0 + 1 < mdeRowsW.length := by
  simp [mdeRowsW]

/-- The closed-form witness table has more than two rows. -/
theorem cfRowsW_length2 : 0 + 1 < cfRowsW.length := by
  simp [cfRowsW]

/-- Witness for the amended C2: at (4, 1, 0.5, 0.75) the bisection rows for
weeks 1 and 2 are numeric and non-increasing, and at (2, 1, 0.5, 0.75) the
Z-score sum is nonnegative and the closed-form rows for weeks 1 and 2 are
non-increasing. -/
theorem mde_sequence_monotone_witness :
    (∃ mj, (mdeRowsW.get ⟨0 + 1, mdeRowsW_length2⟩).mde = some mj ∧ mj ≤ bisWitnessHi) ∧
      (0 ≤ standardNormalInverseCdf (1 - (1 - 1 / 2) / 2) +
          standardNormalInverseCdf (1 - (1 - 3 / 4)) ∧
        (cfRowsW.get ⟨0 + 1, cfRowsW_length2⟩).mde ≤
          (cfRowsW.get ⟨0, Nat.lt_of_succ_lt cfRowsW_length2⟩).mde) := by
  have hz : 0 ≤ standardNormalInverseCdf (1 - (1 - 1 / 2) / 2) +
      standardNormalInverseCdf (1 - (1 - 3 / 4)) := by
    rw [show (1 - (1 - 1 / 2) / 2 : ℝ) = 3 / 4 by norm_num,
      show (1 - (1 - 3 / 4) : ℝ) = 3 / 4 by norm_num]
    linarith [inv_three_quarters_bounds.1]
  refine ⟨?_, hz, ?_⟩
  · exact mde_sequence_monotone.1 4 1 (1 / 2) (3 / 4) mdeRowsW planMde_witness_eq 0
      mdeRowsW_length2 bisWitnessHi mdeRowsW_zero
  · exact mde_sequence_monotone.2 2 1 (1 / 2) (3 / 4) cfRowsW hz planMdeCF_w_eq 0
      cfRowsW_length2

/-- Derivative of `polyA`. -/
noncomputable def polyD (t : ℝ) : ℝ :=
  0.254829592 + 2 * (-0.284496736) * t + 3 * 1.421413741 * t ^ 2 +
    4 * (-1.453152027) * t ^ 3 + 5 * 1.061405429 * t ^ 4

/-- The sign-free factor of the CDF approximation:
`asF x = poly(1/(1+p·x))·exp(-x²)`; for `z ≥ 0` the CDF is `1 - asF z / 2`
and for `z < 0` it is `asF (-z) / 2`. -/
noncomputable def asF (x : ℝ) : ℝ :=
  polyA (1 / (1 + 0.3275911 * x)) * Real.exp (-(x ^ 2))

/-- The CDF approximation expressed through `asF`. -/
theorem cdf_eq_asF (z : ℝ) :
    standardNormalCdf z = if z ≥ 0 then 1 - asF z / 2 else asF (-z) / 2 := by
  unfold standardNormalCdf asF
  by_cases hz : z ≥ 0
  · rw [if_pos hz, if_pos hz, abs_of_nonneg hz]
    ring
  · rw [if_neg hz, if_neg hz, abs_of_neg (lt_of_not_ge hz)]
    rw [show (-z) ^ 2 = z ^ 2 by ring]
    ring

/-- Positivity certificate for the monotonicity of the CDF approximation:
the polynomial `2(1−t)·polyA(t) + p²·t³·polyD(t)` (the numerator of the
derivative of `asF` after the substitution `t = 1/(1+p·x)`) is nonnegative
on `[0,1]`.  The certificate is a single square plus linear remainder
terms; the polynomial is bounded below by about `0.37·t` on `[0,1]`. -/
theorem keyPoly (t : ℝ) (h0 : 0 ≤ t) (h1 : t ≤ 1) :
    0 ≤ 2 * (1 - t) * polyA t + 0.3275911 ^ 2 * t ^ 3 * polyD t := by
  unfold polyA polyD
  nlinarith [mul_nonneg h0 (sq_nonneg (t ^ 3 - 2.4113 * t ^ 2 + 1.9097 * t - 0.496)),
    mul_nonneg (mul_nonneg h0 (sub_nonneg.mpr h1)) (by linarith : (0:ℝ) ≤ 1 + t),
    mul_nonneg (mul_nonneg h0 (sub_nonneg.mpr h1)) (by nlinarith : (0:ℝ) ≤ 1 + t + t ^ 2),
    sq_nonneg t, h0, h1, pow_nonneg h0 5, pow_nonneg h0 6]

/-- Derivative of `asF` at nonnegative points. -/
theorem hasDerivAt_asF (x : ℝ) (hx : 0 ≤ x) :
    HasDerivAt asF
      (polyD (1 / (1 + 0.3275911 * x)) * (-(0.3275911) / (1 + 0.3275911 * x) ^ 2) *
          Real.exp (-(x ^ 2)) +
        polyA (1 / (1 + 0.3275911 * x)) * (Real.exp (-(x ^ 2)) * (-(2 * x)))) x := by
  have hpos : 0 < 1 + 0.3275911 * x := by positivity
  have hne : 1 + 0.3275911 * x ≠ 0 := ne_of_gt hpos
  have hlin : HasDerivAt (fun y : ℝ => 1 + 0.3275911 * y) 0.3275911 x := by
    simpa using (hasDerivAt_id x).const_mul (0.3275911 : ℝ) |>.const_add 1
  have hT : HasDerivAt (fun y : ℝ => 1 / (1 + 0.3275911 * y))
      (-(0.3275911) / (1 + 0.3275911 * x) ^ 2) x := by
    simpa [one_div] using hlin.inv hne
  have hPa : HasDerivAt polyA (polyD (1 / (1 + 0.3275911 * x))) (1 / (1 + 0.3275911 * x)) := by
    unfold polyA polyD
    have h1 := (hasDerivAt_id (1 / (1 + 0.3275911 * x))).const_mul (0.254829592 : ℝ)
    have h2 := (hasDerivAt_pow 2 (1 / (1 + 0.3275911 * x))).const_mul ((-0.284496736) : ℝ)
    have h3 := (hasDerivAt_pow 3 (1 / (1 + 0.3275911 * x))).const_mul (1.421413741 : ℝ)
    have h4 := (hasDerivAt_pow 4 (1 / (1 + 0.3275911 * x))).const_mul ((-1.453152027) : ℝ)
    have h5 := (hasDerivAt_pow 5 (1 / (1 + 0.3275911 * x))).const_mul (1.061405429 : ℝ)
    have hsum := ((((h1.add h2).add h3).add h4).add h5)
    convert hsum using 1
    push_cast
    ring
  have hPoly : HasDerivAt (fun y : ℝ => polyA (1 / (1 + 0.3275911 * y)))
      (polyD (1 / (1 + 0.3275911 * x)) * (-(0.3275911) / (1 + 0.3275911 * x) ^ 2)) x :=
    hPa.comp x hT
  have hExp : HasDerivAt (fun y : ℝ => Real.exp (-(y ^ 2)))
      (Real.exp (-(x ^ 2)) * (-(2 * x))) x := by
    have hsq : HasDerivAt (fun y : ℝ => -(y ^ 2)) (-(2 * x)) x := by
      simpa using (hasDerivAt_pow 2 x).neg
    exact hsq.exp
  exact hPoly.mul hExp

/-- The derivative of `asF` is nonpositive on the positive axis. -/
theorem asF_deriv_nonpos (x : ℝ) (hx : 0 < x) :
    polyD (1 / (1 + 0.3275911 * x)) * (-(0.3275911) / (1 + 0.3275911 * x) ^ 2) *
        Real.exp (-(x ^ 2)) +
      polyA (1 / (1 + 0.3275911 * x)) * (Real.exp (-(x ^ 2)) * (-(2 * x))) ≤ 0 := by
  have hpos : 0 < 1 + 0.3275911 * x := by positivity
  set t := 1 / (1 + 0.3275911 * x) with htdef
  have ht0 : 0 < t := by positivity
  have ht1 : t ≤ 1 := by
    rw [htdef, div_le_one hpos]
    nlinarith
  have htval : 0.3275911 * t * x = 1 - t := by
    rw [htdef]
    field_simp
  have ht2 : -(0.3275911) / (1 + 0.3275911 * x) ^ 2 = -(0.3275911 * t ^ 2) := by
    rw [htdef]
    field_simp
  rw [ht2]
  have hkey := keyPoly t (le_of_lt ht0) ht1
  have hmul : 0 ≤ 0.3275911 * t * (0.3275911 * t ^ 2 * polyD t + 2 * x * polyA t) := by
    have hexpand : 0.3275911 * t * (0.3275911 * t ^ 2 * polyD t + 2 * x * polyA t) =
        0.3275911 ^ 2 * t ^ 3 * polyD t + 2 * (0.3275911 * t * x) * polyA t := by ring
    rw [hexpand, htval]
    linarith
  have hpt : 0 < 0.3275911 * t := by positivity
  have hinner : 0 ≤ 0.3275911 * t ^ 2 * polyD t + 2 * x * polyA t := by
    by_contra hneg
    push_neg at hneg
    nlinarith
  have he := Real.exp_pos (-(x ^ 2))
  nlinarith [mul_nonneg (le_of_lt he) hinner]

/-- The sign-free factor `asF` is antitone on the nonnegative axis. -/
theorem asF_antitoneOn : AntitoneOn asF (Set.Ici 0) := by
  apply antitoneOn_of_deriv_nonpos (convex_Ici 0)
  · intro x hx
    exact (hasDerivAt_asF x hx).differentiableAt.continuousAt.continuousWithinAt
  · intro x hx
    rw [interior_Ici] at hx
    exact (hasDerivAt_asF x (le_of_lt hx)).differentiableAt.differentiableWithinAt
  · intro x hx
    rw [interior_Ici] at hx
    rw [(hasDerivAt_asF x (le_of_lt hx)).deriv]
    exact asF_deriv_nonpos x hx

/-- Value of `asF` at `0`: the coefficient sum `0.999999999`, just below
one. -/
theorem asF_zero : asF 0 = 0.999999999 := by
  unfold asF polyA
  norm_num [Real.exp_zero]

/-- C9.  The CDF approximation is monotone non-decreasing on all of `ℝ`. -/
theorem cdf_monotone (z1 z2 : ℝ) (h : z1 ≤ z2) :
    standardNormalCdf z1 ≤ standardNormalCdf z2 := by
  rw [cdf_eq_asF z1, cdf_eq_asF z2]
  have hA := asF_antitoneOn
  by_cases h1 : z1 ≥ 0
  · have h2 : z2 ≥ 0 := le_trans h1 h
    rw [if_pos h1, if_pos h2]
    have := hA (Set.mem_Ici.mpr h1) (Set.mem_Ici.mpr h2) h
    linarith
  · by_cases h2 : z2 ≥ 0
    · rw [if_neg h1, if_pos h2]
      have hm1 : asF (-z1) ≤ asF 0 := by
        have := hA (Set.mem_Ici.mpr (le_refl (0:ℝ))) (Set.mem_Ici.mpr (by linarith : (0:ℝ) ≤ -z1))
          (by linarith)
        simpa using this
      have hm2 : asF z2 ≤ asF 0 := by
        have := hA (Set.mem_Ici.mpr (le_refl (0:ℝ))) (Set.mem_Ici.mpr h2) h2
        simpa using this
      rw [asF_zero] at hm1 hm2
      linarith
    · rw [if_neg h1, if_neg h2]
      have := hA (Set.mem_Ici.mpr (by linarith : (0:ℝ) ≤ -z2))
        (Set.mem_Ici.mpr (by linarith : (0:ℝ) ≤ -z1)) (by linarith)
      linarith

/-- Witness for C9 at the concrete pair `0 ≤ 1`. -/
theorem cdf_monotone_witness :
    (0:ℝ) ≤ 1 ∧ standardNormalCdf 0 ≤ standardNormalCdf 1 :=
  ⟨by norm_num, cdf_monotone 0 1 (by norm_num)⟩

end CxlCalc
